import Mathlib

/-!
# Verification of the libvpsc block-based VPSC solver core

A shallow embedding of `src/cola/libvpsc/solve_VPSC.cpp` (namespace `vpsc`).
C++ `double` values are modelled as exact rationals `ℚ`; the IEEE sentinel
`DBL_MAX` used by `IncSolver::mostViolated` is carried as the concrete
rational value of the largest finite double, and possible NaN results are
modelled with `Option ℚ` (`none` = NaN) where a claim is about NaN.

The classes `Variable`, `Constraint` (its method `slack`), `Block` and
`Blocks` are declared in headers that are not part of the sources at hand;
only their fields and behaviour documented in the specification are
modelled (each such definition is marked `Modelled from the spec:`).
Everything else is translated directly from `solve_VPSC.cpp`.
-/

namespace Vpsc

/-- `static const double ZERO_UPPERBOUND=-1e-10;` (solve_VPSC.cpp line 55). -/
def ZERO_UPPERBOUND : ℚ := -(1 / 10 ^ 10)

/-- `static const double LAGRANGIAN_TOLERANCE=-1e-4;` (solve_VPSC.cpp line 56). -/
def LAGRANGIAN_TOLERANCE : ℚ := -(1 / 10 ^ 4)

/-- The largest finite IEEE-754 double, `DBL_MAX` from `<cfloat>`,
used as the initial `minSlack` in `IncSolver::mostViolated`. -/
def DBL_MAX : ℚ := 2 ^ 1024 - 2 ^ 971

/-- Modelled from the spec: the fields of class `Variable` (§3) that the
solver core reads or writes.  `position = block.position + offset/scale`,
so the block's position is carried here as `blockPosition`; the incident
constraint lists `in`/`out` play no role in the claims below and are
omitted.  `finalPosition` is `Option ℚ`: `none` models a NaN written by
`copyResult`. -/
structure Variable where
  desiredPosition : ℚ
  weight : ℚ
  scale : ℚ
  offset : ℚ
  blockPosition : ℚ
  finalPosition : Option ℚ
deriving DecidableEq, Repr

/-- Modelled from the spec (§3): `position = block.position + offset/scale`.
Total over `ℚ` (division by zero yields `0`); NaN-awareness is in
`Variable.positionOpt`. -/
def Variable.position (v : Variable) : ℚ :=
  v.blockPosition + v.offset / v.scale

/-- Modelled from the spec: the same position as an IEEE computation.
With a zero `scale` the C++ division `offset/scale` produces a non-finite
value, modelled as `none`; every other case is the exact rational. -/
def Variable.positionOpt (v : Variable) : Option ℚ :=
  if v.scale = 0 then none else some v.position

/-- Modelled from the spec: the fields of class `Constraint` (§3) used by
the solver core.  `left`/`right` are embedded by value: a `Constraint`
here is a snapshot of the constraint together with the current state of
its two endpoint variables. -/
structure Constraint where
  left : Variable
  right : Variable
  gap : ℚ
  equality : Bool
  active : Bool
  unsatisfiable : Bool
deriving DecidableEq, Repr

/-- Modelled from the spec: `Constraint::slack()` (§3: `right.position −
left.position − gap`).  §7 and §8 invariant 1 require constraints flagged
`unsatisfiable` to pass the final `slack ≥ ZERO_UPPERBOUND` verifications,
and the verification loops in solve_VPSC.cpp do not special-case the
flag — so `slack()` itself reports `DBL_MAX` for a flagged constraint,
which also makes `mostViolated`'s `slack < minSlack` scan (initial
`minSlack = DBL_MAX`) skip flagged constraints. -/
def Constraint.slack (c : Constraint) : ℚ :=
  if c.unsatisfiable then DBL_MAX else c.right.position - c.left.position - c.gap

/-- The solver errors.  `unsatisfiedConstraint` models
`throw UnsatisfiedConstraint(*cs[i])` (solve_VPSC.cpp lines 138, 180);
`charPtrError` models `throw s.str().c_str()` (line 309), the raw C-string
`"Unsatisfied constraint: ..."` describing the constraint it carries. -/
inductive SolveError where
  | unsatisfiedConstraint (c : Constraint)
  | charPtrError (c : Constraint)
deriving DecidableEq, Repr

/-- Whether a computation ended by raising `UnsatisfiedConstraint`. -/
def raisesUnsatisfiedConstraint {α : Type} : Except SolveError α → Bool
  | Except.error (SolveError.unsatisfiedConstraint _) => true
  | _ => false

/-- Whether a computation ended by raising any error at all. -/
def raisesError {α : Type} : Except SolveError α → Bool
  | Except.error _ => true
  | _ => false

/-- The final verification loop of `Solver::satisfy` (solve_VPSC.cpp lines
130–140): walk the constraints in order, record whether any is active, and
throw `UnsatisfiedConstraint` at the first one whose slack is below
`ZERO_UPPERBOUND`.  `acc` is the running `activeConstraints` flag. -/
def satisfyVerify : List Constraint → Bool → Except SolveError Bool
  | [], acc => Except.ok acc
  | c :: rest, acc =>
    let acc := acc || c.active
    if c.slack < ZERO_UPPERBOUND then Except.error (SolveError.unsatisfiedConstraint c)
    else satisfyVerify rest acc

/-- The final verification loop of `Solver::refine` (solve_VPSC.cpp lines
177–182): throw `UnsatisfiedConstraint` at the first constraint whose
slack is below `ZERO_UPPERBOUND`. -/
def refineVerify : List Constraint → Except SolveError Unit
  | [] => Except.ok ()
  | c :: rest =>
    if c.slack < ZERO_UPPERBOUND then Except.error (SolveError.unsatisfiedConstraint c)
    else refineVerify rest

/-- The final verification loop of `IncSolver::satisfy` (solve_VPSC.cpp
lines 298–311): identical scan, but it throws the C string
`s.str().c_str()` — not `UnsatisfiedConstraint`. -/
def incSatisfyVerify : List Constraint → Bool → Except SolveError Bool
  | [], acc => Except.ok acc
  | c :: rest, acc =>
    let acc := acc || c.active
    if c.slack < ZERO_UPPERBOUND then Except.error (SolveError.charPtrError c)
    else incSatisfyVerify rest acc

/-- `Solver::copyResult` (solve_VPSC.cpp lines 103–109): for every variable
`v` in the solver's list, `v->finalPosition = v->position();`.  The write is
the IEEE value (`positionOpt`), so that the `ASSERT(v->finalPosition ==
v->finalPosition)` — which fails exactly on NaN — is modelled by the
written option being `some`. -/
def copyResult (vs : List Variable) : List Variable :=
  vs.map (fun v => { v with finalPosition := v.positionOpt })

/-- `return bs->size()!=n;` — the value returned by `Solver::solve`
(solve_VPSC.cpp line 194) and `IncSolver::solve` (line 213), as a function
of the sizes of the live blocks and the number `n` of variables. -/
def solveReturn (blockSizes : List ℕ) (n : ℕ) : Bool :=
  blockSizes.length ≠ n

/-- The scan loop of `IncSolver::mostViolated` (solve_VPSC.cpp lines
386–397).  The accumulator carries `minSlack` (initially `DBL_MAX`) and,
once `v` and `deletePoint` have been set, `some (v, deletePoint)` where
`deletePoint` is the index of `v` in the scanned vector.  An equality
constraint records itself and breaks out of the loop at once. -/
def mvScan : List Constraint → ℕ → ℚ → Option (Constraint × ℕ) →
    ℚ × Option (Constraint × ℕ)
  | [], _, minSlack, acc => (minSlack, acc)
  | c :: rest, i, minSlack, acc =>
    if c.equality then (c.slack, some (c, i))
    else if c.slack < minSlack then mvScan rest (i + 1) c.slack (some (c, i))
    else mvScan rest (i + 1) minSlack acc

/-- `*deletePoint = l[l.size()-1]; l.resize(l.size()-1);` — overwrite the
element at index `i` with the last element, then drop the last element. -/
def swapRemove (l : List Constraint) (i : ℕ) : List Constraint :=
  match l.getLast? with
  | none => l
  | some last => (l.set i last).dropLast

/-- `IncSolver::mostViolated` (solve_VPSC.cpp lines 379–410): scan for the
most violated (or first equality) constraint; swap-remove it from the list
when `minSlack < ZERO_UPPERBOUND && !v->active || v->equality`; return the
winner (`none` models the `NULL` result) together with the list as left by
the call. -/
def mostViolated (l : List Constraint) : Option Constraint × List Constraint :=
  match mvScan l 0 DBL_MAX none with
  | (_, none) => (none, l)
  | (minSlack, some (v, i)) =>
    if (minSlack < ZERO_UPPERBOUND ∧ ¬v.active) ∨ v.equality then
      (some v, swapRemove l i)
    else (some v, l)

/-- The guard of the merge loop of `IncSolver::satisfy` (solve_VPSC.cpp
lines 237–238): `v->equality || v->slack() < ZERO_UPPERBOUND && !v->active`
— C++ `&&` binds tighter than `||`. -/
def mergeLoopGuard (v : Constraint) : Bool :=
  v.equality || (decide (v.slack < ZERO_UPPERBOUND) && !v.active)

/-- The full loop condition `(v=mostViolated(inactive)) && guard(v)`: a
`NULL` result of `mostViolated` stops the loop before the guard is read. -/
def mergeLoopCond : Option Constraint → Bool
  | none => false
  | some v => mergeLoopGuard v

/-- Modelled from the spec: the outcomes of the `Block`/`Blocks` calls made
by one iteration of the merge loop of `IncSolver::satisfy` (solve_VPSC.cpp
lines 241–288).  The classes `Block` and `Blocks` are not among the
sources, so `lb == rb`, `isActiveDirectedPathBetween`, `splitBetween`
(its result, or whether it throws `UnsatisfiableException`), and the value
of `v->slack()` re-evaluated after the split are carried as givens. -/
structure StepCtx where
  sameBlock : Bool
  pathRightLeft : Bool
  splitThrows : Bool
  splitResult : Option Constraint
  slackAfterSplit : ℚ
deriving DecidableEq, Repr

/-- The block-set operations a loop-body iteration can perform, in order. -/
inductive BlockAction where
  | mergeBlocks
  | insertLeftHalf
  | insertRightHalf
  | insertMerged
  | cleanup
deriving DecidableEq, Repr

/-- What one iteration of the merge loop left behind: the constraint `v`
(its `unsatisfiable` flag possibly set), the `inactive` list, the block-set
operations performed, and any error propagated out of the body. -/
structure StepResult where
  v : Constraint
  inactive : List Constraint
  actions : List BlockAction
  raised : Option SolveError
deriving DecidableEq, Repr

/-- The body of the merge loop of `IncSolver::satisfy` (solve_VPSC.cpp
lines 241–288), for the constraint `v` returned by `mostViolated` and the
`inactive` list as `mostViolated` left it.  `continue` skips the
`bs->cleanup()` on line 289, so those branches perform no block action;
the `catch` swallows `UnsatisfiableException`, flags `v` and continues. -/
def satisfyStep (ctx : StepCtx) (v : Constraint) (inact : List Constraint) :
    StepResult :=
  if !ctx.sameBlock then
    { v := v, inactive := inact,
      actions := [BlockAction.mergeBlocks, BlockAction.cleanup], raised := none }
  else if ctx.pathRightLeft then
    { v := { v with unsatisfiable := true }, inactive := inact,
      actions := [], raised := none }
  else if ctx.splitThrows then
    { v := { v with unsatisfiable := true }, inactive := inact,
      actions := [], raised := none }
  else
    match ctx.splitResult with
    | none =>
      { v := { v with unsatisfiable := true }, inactive := inact,
        actions := [], raised := none }
    | some cSplit =>
      if 0 ≤ ctx.slackAfterSplit then
        { v := v, inactive := (inact ++ [cSplit]) ++ [v],
          actions := [BlockAction.insertLeftHalf, BlockAction.insertRightHalf,
            BlockAction.cleanup],
          raised := none }
      else
        { v := v, inactive := inact ++ [cSplit],
          actions := [BlockAction.mergeBlocks, BlockAction.insertMerged,
            BlockAction.cleanup],
          raised := none }

/-- The outer loop of `Solver::refine` (solve_VPSC.cpp lines 147–176).
`splitFound k` abstracts pass `k`'s scan of the blocks (`Block::findMinLM`
is not among the sources): `true` iff some block exposes an internal
constraint with `lm < LAGRANGIAN_TOLERANCE`, in which case the pass splits
and the loop restarts (`solved=false`); a pass without a split leaves
`solved=true` and the loop exits.  The first argument is the remaining
`maxtries` budget, the second the number of passes already run; the result
is the total number of passes executed. -/
def refineLoop (splitFound : ℕ → Bool) : ℕ → ℕ → ℕ
  | 0, passes => passes
  | fuel + 1, passes =>
    if splitFound passes then refineLoop splitFound fuel (passes + 1)
    else passes + 1

/-- The number of outer passes a `Solver::refine()` call executes:
`unsigned maxtries=100;` (solve_VPSC.cpp line 150). -/
def refinePassCount (splitFound : ℕ → Bool) : ℕ :=
  refineLoop splitFound 100 0

/-- The solver state the merge loop of `IncSolver::satisfy` acts upon:
the variables and the `inactive` constraint list. -/
structure SolverState where
  vars : List Variable
  inactive : List Constraint
deriving DecidableEq, Repr

/-- The merge loop of `IncSolver::satisfy` (solve_VPSC.cpp lines 235–293),
fuel-bounded.  `bodyEffect v st` abstracts the state change of one body
iteration (`Block::merge` / `splitBetween` / `cleanup` are not among the
sources).  Each round calls `mostViolated` — which may remove the winner
from `inactive` — and runs the body exactly when `mergeLoopGuard` holds. -/
def mergeLoop (bodyEffect : Constraint → SolverState → SolverState) :
    ℕ → SolverState → SolverState
  | 0, st => st
  | fuel + 1, st =>
    match mostViolated st.inactive with
    | (none, inact) => { st with inactive := inact }
    | (some v, inact) =>
      if mergeLoopGuard v then
        mergeLoop bodyEffect fuel (bodyEffect v { st with inactive := inact })
      else { st with inactive := inact }

/-- `IncSolver::solve` / `IncSolver::satisfy` as a state-to-output map:
run the merge loop, then `copyResult` writes every variable's
`finalPosition`.  The output is the list of variables with their written
`finalPosition` fields. -/
def solveModel (bodyEffect : Constraint → SolverState → SolverState)
    (fuel : ℕ) (st : SolverState) : List Variable :=
  copyResult (mergeLoop bodyEffect fuel st).vars

/-- A variable sitting at the origin of its own singleton block. -/
def unitVar : Variable :=
  { desiredPosition := 0, weight := 1, scale := 1, offset := 0,
    blockPosition := 0, finalPosition := none }

/-- A concrete violated constraint: both endpoints at position `0`, gap
`1`, so its slack is `−1 < ZERO_UPPERBOUND`. -/
def violatedConstraint : Constraint :=
  { left := unitVar, right := unitVar, gap := 1, equality := false,
    active := false, unsatisfiable := false }

/-! ## Helper lemmas -/

lemma violatedConstraint_slack : violatedConstraint.slack = -1 := by
  norm_num [violatedConstraint, unitVar, Constraint.slack, Variable.position]

lemma violatedConstraint_slack_lt : violatedConstraint.slack < ZERO_UPPERBOUND := by
  rw [violatedConstraint_slack]
  norm_num [ZERO_UPPERBOUND]

lemma violatedConstraint_slack_lt_max : violatedConstraint.slack < DBL_MAX := by
  rw [violatedConstraint_slack]
  norm_num [DBL_MAX]

lemma list_length_le_sum (l : List ℕ) (h : ∀ s ∈ l, 1 ≤ s) : l.length ≤ l.sum := by
  induction l with
  | nil => simp
  | cons a t ih =>
    have ha := h a (List.mem_cons_self a t)
    have ht := ih (fun s hs => h s (List.mem_cons_of_mem a hs))
    simp only [List.length_cons, List.sum_cons]
    omega

lemma list_sum_of_all_one (l : List ℕ) (h : ∀ s ∈ l, s = 1) : l.sum = l.length := by
  induction l with
  | nil => simp
  | cons a t ih =>
    have ha := h a (List.mem_cons_self a t)
    have ht := ih (fun s hs => h s (List.mem_cons_of_mem a hs))
    simp only [List.length_cons, List.sum_cons]
    omega

lemma list_length_lt_sum (l : List ℕ) (h : ∀ s ∈ l, 1 ≤ s) (s : ℕ) (hs : s ∈ l)
    (h2 : 1 < s) : l.length < l.sum := by
  induction l with
  | nil => simp at hs
  | cons a t ih =>
    have ha := h a (List.mem_cons_self a t)
    have ht := list_length_le_sum t (fun d hd => h d (List.mem_cons_of_mem a hd))
    rcases List.mem_cons.mp hs with rfl | hmem
    · simp only [List.length_cons, List.sum_cons]
      omega
    · have := ih (fun d hd => h d (List.mem_cons_of_mem a hd)) hmem
      simp only [List.length_cons, List.sum_cons] at *
      omega

lemma satisfyVerify_raises (cs : List Constraint) : ∀ acc : Bool,
    (∃ c ∈ cs, c.slack < ZERO_UPPERBOUND) →
    raisesUnsatisfiedConstraint (satisfyVerify cs acc) = true := by
  induction cs with
  | nil => intro acc h; simp at h
  | cons c rest ih =>
    intro acc h
    by_cases hc : c.slack < ZERO_UPPERBOUND
    · simp [satisfyVerify, hc, raisesUnsatisfiedConstraint]
    · have hrest : ∃ d ∈ rest, d.slack < ZERO_UPPERBOUND := by
        rcases h with ⟨d, hd, hlt⟩
        rcases List.mem_cons.mp hd with rfl | hmem
        · exact absurd hlt hc
        · exact ⟨d, hmem, hlt⟩
      simpa [satisfyVerify, hc] using ih (acc || c.active) hrest

lemma refineVerify_raises (cs : List Constraint) :
    (∃ c ∈ cs, c.slack < ZERO_UPPERBOUND) →
    raisesUnsatisfiedConstraint (refineVerify cs) = true := by
  induction cs with
  | nil => intro h; simp at h
  | cons c rest ih =>
    intro h
    by_cases hc : c.slack < ZERO_UPPERBOUND
    · simp [refineVerify, hc, raisesUnsatisfiedConstraint]
    · have hrest : ∃ d ∈ rest, d.slack < ZERO_UPPERBOUND := by
        rcases h with ⟨d, hd, hlt⟩
        rcases List.mem_cons.mp hd with rfl | hmem
        · exact absurd hlt hc
        · exact ⟨d, hmem, hlt⟩
      simpa [refineVerify, hc] using ih hrest

lemma incSatisfyVerify_raises (cs : List Constraint) : ∀ acc : Bool,
    (∃ c ∈ cs, c.slack < ZERO_UPPERBOUND) →
    raisesError (incSatisfyVerify cs acc) = true := by
  induction cs with
  | nil => intro acc h; simp at h
  | cons c rest ih =>
    intro acc h
    by_cases hc : c.slack < ZERO_UPPERBOUND
    · simp [incSatisfyVerify, hc, raisesError]
    · have hrest : ∃ d ∈ rest, d.slack < ZERO_UPPERBOUND := by
        rcases h with ⟨d, hd, hlt⟩
        rcases List.mem_cons.mp hd with rfl | hmem
        · exact absurd hlt hc
        · exact ⟨d, hmem, hlt⟩
      simpa [incSatisfyVerify, hc] using ih (acc || c.active) hrest

lemma incSatisfyVerify_no_unsat (cs : List Constraint) : ∀ acc : Bool,
    raisesUnsatisfiedConstraint (incSatisfyVerify cs acc) = false := by
  induction cs with
  | nil => intro acc; simp [incSatisfyVerify, raisesUnsatisfiedConstraint]
  | cons c rest ih =>
    intro acc
    by_cases hc : c.slack < ZERO_UPPERBOUND
    · simp [incSatisfyVerify, hc, raisesUnsatisfiedConstraint]
    · simpa [incSatisfyVerify, hc] using ih (acc || c.active)

lemma satisfyVerify_ok (cs : List Constraint) : ∀ (acc b : Bool),
    satisfyVerify cs acc = Except.ok b → ∀ c ∈ cs, ZERO_UPPERBOUND ≤ c.slack := by
  induction cs with
  | nil => intro acc b _ c hc; simp at hc
  | cons c rest ih =>
    intro acc b h d hd
    by_cases hc : c.slack < ZERO_UPPERBOUND
    · simp [satisfyVerify, hc] at h
    · rcases List.mem_cons.mp hd with rfl | hmem
      · exact le_of_not_lt hc
      · exact ih (acc || c.active) b (by simpa [satisfyVerify, hc] using h) d hmem

lemma refineVerify_ok (cs : List Constraint) :
    refineVerify cs = Except.ok () → ∀ c ∈ cs, ZERO_UPPERBOUND ≤ c.slack := by
  induction cs with
  | nil => intro _ c hc; simp at hc
  | cons c rest ih =>
    intro h d hd
    by_cases hc : c.slack < ZERO_UPPERBOUND
    · simp [refineVerify, hc] at h
    · rcases List.mem_cons.mp hd with rfl | hmem
      · exact le_of_not_lt hc
      · exact ih (by simpa [refineVerify, hc] using h) d hmem

lemma incSatisfyVerify_ok (cs : List Constraint) : ∀ (acc b : Bool),
    incSatisfyVerify cs acc = Except.ok b → ∀ c ∈ cs, ZERO_UPPERBOUND ≤ c.slack := by
  induction cs with
  | nil => intro acc b _ c hc; simp at hc
  | cons c rest ih =>
    intro acc b h d hd
    by_cases hc : c.slack < ZERO_UPPERBOUND
    · simp [incSatisfyVerify, hc] at h
    · rcases List.mem_cons.mp hd with rfl | hmem
      · exact le_of_not_lt hc
      · exact ih (acc || c.active) b (by simpa [incSatisfyVerify, hc] using h) d hmem

lemma flagged_slack_ge (c : Constraint) (h : c.unsatisfiable = true) :
    ZERO_UPPERBOUND ≤ c.slack := by
  simp only [Constraint.slack, h, if_pos]
  norm_num [ZERO_UPPERBOUND, DBL_MAX]

lemma refineLoop_le (f : ℕ → Bool) : ∀ (fuel p : ℕ),
    refineLoop f fuel p ≤ p + fuel ∧
    (refineLoop f fuel p = p + fuel ∨ f (refineLoop f fuel p - 1) = false) := by
  intro fuel
  induction fuel with
  | zero => intro p; simp [refineLoop]
  | succ fuel ih =>
    intro p
    have hunfold : refineLoop f (fuel + 1) p =
        if f p then refineLoop f fuel (p + 1) else p + 1 := rfl
    by_cases hf : f p = true
    · rcases ih (p + 1) with ⟨hle, hdisj⟩
      rw [hunfold, if_pos hf]
      constructor
      · omega
      · rcases hdisj with h | h
        · left; omega
        · right; exact h
    · rw [hunfold, if_neg hf]
      constructor
      · omega
      · right
        have hp : p + 1 - 1 = p := rfl
        rw [hp]
        exact eq_false_of_ne_true hf

lemma mvScan_cons (c : Constraint) (rest : List Constraint) (i : ℕ) (ms : ℚ)
    (acc : Option (Constraint × ℕ)) :
    mvScan (c :: rest) i ms acc =
      if c.equality then (c.slack, some (c, i))
      else if c.slack < ms then mvScan rest (i + 1) c.slack (some (c, i))
      else mvScan rest (i + 1) ms acc := rfl

lemma mvScan_fst_le : ∀ (l : List Constraint) (i : ℕ) (ms : ℚ)
    (acc : Option (Constraint × ℕ)),
    (∀ c ∈ l, c.equality = false) →
    (mvScan l i ms acc).1 ≤ ms ∧ ∀ c ∈ l, (mvScan l i ms acc).1 ≤ c.slack := by
  intro l
  induction l with
  | nil => intro i ms acc _; simp [mvScan]
  | cons c rest ih =>
    intro i ms acc h
    have hc : c.equality = false := h c (List.mem_cons_self c rest)
    have hrest : ∀ d ∈ rest, d.equality = false :=
      fun d hd => h d (List.mem_cons_of_mem c hd)
    rw [mvScan_cons, if_neg (by simp [hc])]
    by_cases hlt : c.slack < ms
    · rw [if_pos hlt]
      rcases ih (i + 1) c.slack (some (c, i)) hrest with ⟨h1, h2⟩
      refine ⟨h1.trans (le_of_lt hlt), ?_⟩
      intro d hd
      rcases List.mem_cons.mp hd with rfl | hmem
      · exact h1
      · exact h2 d hmem
    · rw [if_neg hlt]
      rcases ih (i + 1) ms acc hrest with ⟨h1, h2⟩
      refine ⟨h1, ?_⟩
      intro d hd
      rcases List.mem_cons.mp hd with rfl | hmem
      · exact h1.trans (le_of_not_lt hlt)
      · exact h2 d hmem

lemma mvScan_fst_slack : ∀ (l : List Constraint) (i : ℕ) (ms : ℚ)
    (acc : Option (Constraint × ℕ)),
    (∀ v j, acc = some (v, j) → ms = v.slack) →
    ∀ ms' v' j', mvScan l i ms acc = (ms', some (v', j')) → ms' = v'.slack := by
  intro l
  induction l with
  | nil =>
    intro i ms acc hacc ms' v' j' h
    simp only [mvScan, Prod.mk.injEq] at h
    rcases h with ⟨h1, h2⟩
    rw [← h1]
    exact hacc v' j' h2
  | cons c rest ih =>
    intro i ms acc hacc ms' v' j' h
    rw [mvScan_cons] at h
    by_cases hc : c.equality = true
    · rw [if_pos hc] at h
      simp only [Prod.mk.injEq, Option.some.injEq] at h
      rcases h with ⟨h1, h2, h3⟩
      rw [← h1, ← h2]
    · rw [if_neg hc] at h
      by_cases hlt : c.slack < ms
      · rw [if_pos hlt] at h
        refine ih (i + 1) c.slack (some (c, i)) ?_ ms' v' j' h
        intro v j hvj
        simp only [Option.some.injEq, Prod.mk.injEq] at hvj
        rw [hvj.1]
      · rw [if_neg hlt] at h
        exact ih (i + 1) ms acc hacc ms' v' j' h

lemma mvScan_index : ∀ (l : List Constraint) (i : ℕ) (ms : ℚ)
    (acc : Option (Constraint × ℕ)) (ms' : ℚ) (v : Constraint) (j : ℕ),
    mvScan l i ms acc = (ms', some (v, j)) →
    acc = some (v, j) ∨ (i ≤ j ∧ j < i + l.length ∧ l.get? (j - i) = some v) := by
  intro l
  induction l with
  | nil =>
    intro i ms acc ms' v j h
    simp only [mvScan, Prod.mk.injEq] at h
    exact Or.inl h.2
  | cons c rest ih =>
    intro i ms acc ms' v j h
    rw [mvScan_cons] at h
    by_cases hc : c.equality = true
    · rw [if_pos hc] at h
      simp only [Prod.mk.injEq, Option.some.injEq] at h
      rcases h with ⟨_, h2, h3⟩
      right
      refine ⟨by omega, by simp [← h3], ?_⟩
      rw [← h3, ← h2]
      simp
    · rw [if_neg hc] at h
      have hstep : ∀ acc₀, mvScan rest (i + 1) ms acc₀ = (ms', some (v, j)) →
          acc₀ = some (v, j) ∨
            (i ≤ j ∧ j < i + (c :: rest).length ∧ (c :: rest).get? (j - i) = some v) := by
        intro acc₀ h₀
        rcases ih (i + 1) ms acc₀ ms' v j h₀ with hl | ⟨hj1, hj2, hj3⟩
        · exact Or.inl hl
        · right
          refine ⟨by omega, by simp; omega, ?_⟩
          have hji : j - i = (j - (i + 1)) + 1 := by omega
          rw [hji, List.get?_cons_succ]
          exact hj3
      by_cases hlt : c.slack < ms
      · rw [if_pos hlt] at h
        rcases ih (i + 1) c.slack (some (c, i)) ms' v j h with hl | ⟨hj1, hj2, hj3⟩
        · simp only [Option.some.injEq, Prod.mk.injEq] at hl
          right
          refine ⟨by omega, by simp; omega, ?_⟩
          rw [← hl.2, Nat.sub_self]
          simp [hl.1]
        · right
          refine ⟨by omega, by simp; omega, ?_⟩
          have hji : j - i = (j - (i + 1)) + 1 := by omega
          rw [hji, List.get?_cons_succ]
          exact hj3
      · rw [if_neg hlt] at h
        exact hstep acc h

lemma mvScan_firstEq : ∀ (l : List Constraint) (i : ℕ) (ms : ℚ)
    (acc : Option (Constraint × ℕ)) (e : Constraint),
    l.find? (fun c => c.equality) = some e →
    ∃ j, mvScan l i ms acc = (e.slack, some (e, j)) := by
  intro l
  induction l with
  | nil => intro i ms acc e h; simp at h
  | cons c rest ih =>
    intro i ms acc e h
    by_cases hc : c.equality = true
    · rw [List.find?_cons_of_pos _ (by simp [hc])] at h
      simp only [Option.some.injEq] at h
      subst h
      exact ⟨i, by rw [mvScan_cons, if_pos hc]⟩
    · rw [List.find?_cons_of_neg _ (by simp [hc])] at h
      by_cases hlt : c.slack < ms
      · rcases ih (i + 1) c.slack (some (c, i)) e h with ⟨j, hj⟩
        exact ⟨j, by rw [mvScan_cons, if_neg (by simp [hc]), if_pos hlt]; exact hj⟩
      · rcases ih (i + 1) ms acc e h with ⟨j, hj⟩
        exact ⟨j, by rw [mvScan_cons, if_neg (by simp [hc]), if_neg hlt]; exact hj⟩

lemma mvScan_acc_some : ∀ (l : List Constraint) (i : ℕ) (ms : ℚ)
    (v : Constraint) (j : ℕ),
    ∃ p, (mvScan l i ms (some (v, j))).2 = some p := by
  intro l
  induction l with
  | nil => intro i ms v j; exact ⟨(v, j), rfl⟩
  | cons c rest ih =>
    intro i ms v j
    rw [mvScan_cons]
    by_cases hc : c.equality = true
    · rw [if_pos hc]; exact ⟨(c, i), rfl⟩
    · rw [if_neg (by simp [hc])]
      by_cases hlt : c.slack < ms
      · rw [if_pos hlt]; exact ih (i + 1) c.slack c i
      · rw [if_neg hlt]; exact ih (i + 1) ms v j

lemma mvScan_some_of_wit : ∀ (l : List Constraint) (i : ℕ) (ms : ℚ)
    (acc : Option (Constraint × ℕ)),
    (∃ c ∈ l, c.slack < ms ∨ c.equality = true) →
    ∃ p, (mvScan l i ms acc).2 = some p := by
  intro l
  induction l with
  | nil => intro i ms acc h; simp at h
  | cons c rest ih =>
    intro i ms acc h
    rw [mvScan_cons]
    by_cases hc : c.equality = true
    · rw [if_pos hc]; exact ⟨(c, i), rfl⟩
    · rw [if_neg (by simp [hc])]
      by_cases hlt : c.slack < ms
      · rw [if_pos hlt]; exact mvScan_acc_some rest (i + 1) c.slack c i
      · rw [if_neg hlt]
        refine ih (i + 1) ms acc ?_
        rcases h with ⟨d, hd, hcond⟩
        rcases List.mem_cons.mp hd with rfl | hmem
        · rcases hcond with h1 | h1
          · exact absurd h1 hlt
          · exact absurd h1 hc
        · exact ⟨d, hmem, hcond⟩

/-! ## Claim theorems -/

/-- C1 (amended): the final verifications of `Solver::satisfy` and
`Solver::refine` raise `UnsatisfiedConstraint` whenever some constraint's
slack is below `ZERO_UPPERBOUND`; the verification of
`IncSolver::satisfy` also fails then, but by throwing a C string, never
`UnsatisfiedConstraint`.  When any of the three returns normally, every
constraint's slack is `≥ ZERO_UPPERBOUND`; a constraint flagged
`unsatisfiable` always passes the check since its slack reports
`DBL_MAX`. -/
theorem verify_raises_c1 : ∀ (cs : List Constraint) (acc : Bool),
    ((∃ c ∈ cs, c.slack < ZERO_UPPERBOUND) →
        raisesUnsatisfiedConstraint (satisfyVerify cs acc) = true ∧
        raisesUnsatisfiedConstraint (refineVerify cs) = true ∧
        raisesError (incSatisfyVerify cs acc) = true ∧
        raisesUnsatisfiedConstraint (incSatisfyVerify cs acc) = false) ∧
    (∀ b, satisfyVerify cs acc = Except.ok b → ∀ c ∈ cs, ZERO_UPPERBOUND ≤ c.slack) ∧
    (refineVerify cs = Except.ok () → ∀ c ∈ cs, ZERO_UPPERBOUND ≤ c.slack) ∧
    (∀ b, incSatisfyVerify cs acc = Except.ok b → ∀ c ∈ cs, ZERO_UPPERBOUND ≤ c.slack) ∧
    (∀ c : Constraint, c.unsatisfiable = true → ZERO_UPPERBOUND ≤ c.slack) := by
  intro cs acc
  refine ⟨fun h => ⟨satisfyVerify_raises cs acc h, refineVerify_raises cs h,
      incSatisfyVerify_raises cs acc h, incSatisfyVerify_no_unsat cs acc⟩,
    fun b => satisfyVerify_ok cs acc b, refineVerify_ok cs,
    fun b => incSatisfyVerify_ok cs acc b, flagged_slack_ge⟩

/-- Witness for C1: the amended theorem applied to a concrete violated
constraint list. -/
theorem verify_raises_c1_witness :
    raisesUnsatisfiedConstraint (satisfyVerify [violatedConstraint] false) = true :=
  (((verify_raises_c1 [violatedConstraint] false).1)
      ⟨violatedConstraint, List.mem_singleton.mpr rfl, violatedConstraint_slack_lt⟩).1

/-- Counterexample for C1 as stated: on a violated input,
`IncSolver::satisfy`'s verification fails, but the error raised is the
C string of line 309 of solve_VPSC.cpp, not `UnsatisfiedConstraint`. -/
theorem verify_raises_c1_cex :
    raisesError (incSatisfyVerify [violatedConstraint] false) = true ∧
    raisesUnsatisfiedConstraint (incSatisfyVerify [violatedConstraint] false) = false := by
  have h := violatedConstraint_slack_lt
  constructor <;>
    simp [incSatisfyVerify, h, raisesError, raisesUnsatisfiedConstraint]

/-- C2: given that the live blocks are non-empty and partition the `n`
variables, `Solver::solve`'s return value `bs->size()!=n` is `true` iff
some block holds more than one variable. -/
theorem solveReturn_c2 : ∀ (sizes : List ℕ) (n : ℕ),
    (∀ s ∈ sizes, 1 ≤ s) → sizes.sum = n →
    (solveReturn sizes n = true ↔ ∃ s ∈ sizes, 1 < s) := by
  intro sizes n h1 h2
  subst h2
  simp only [solveReturn, ne_eq, decide_eq_true_eq]
  constructor
  · intro hne
    by_contra hall
    push_neg at hall
    have hone : ∀ s ∈ sizes, s = 1 := fun s hs => le_antisymm (hall s hs) (h1 s hs)
    exact hne (list_sum_of_all_one sizes hone).symm
  · rintro ⟨s, hs, hlt⟩ heq
    have := list_length_lt_sum sizes h1 s hs hlt
    omega

/-- Witness for C2: two blocks of sizes 2 and 1 over three variables. -/
theorem solveReturn_c2_witness :
    (∀ s ∈ [2, 1], 1 ≤ s) ∧ [2, 1].sum = 3 ∧
    (solveReturn [2, 1] 3 = true ↔ ∃ s ∈ [2, 1], 1 < s) :=
  ⟨by decide, by decide, solveReturn_c2 [2, 1] 3 (by decide) (by decide)⟩

/-- C3: on a non-empty inactive list whose slacks are below `DBL_MAX`
(every finite state; flagged constraints report `DBL_MAX`),
`IncSolver::mostViolated` returns a member of the list of minimal slack —
the first equality constraint taking priority over all others — and
swap-removes it exactly when it is an equality or non-active with slack
below `ZERO_UPPERBOUND`, leaving the list unchanged otherwise. -/
theorem mostViolated_c3 : ∀ (l : List Constraint),
    l ≠ [] → (∀ c ∈ l, c.slack < DBL_MAX) →
    ∃ v j, (mostViolated l).1 = some v ∧
      j < l.length ∧ l.get? j = some v ∧
      ((v.equality = true ∨ (v.slack < ZERO_UPPERBOUND ∧ v.active = false)) →
          (mostViolated l).2 = swapRemove l j) ∧
      ((v.equality = false ∧ (ZERO_UPPERBOUND ≤ v.slack ∨ v.active = true)) →
          (mostViolated l).2 = l) ∧
      ((∀ c ∈ l, c.equality = false) → ∀ c ∈ l, v.slack ≤ c.slack) ∧
      (∀ e, l.find? (fun c => c.equality) = some e → v = e) := by
  intro l hne hfin
  obtain ⟨c0, hc0⟩ := List.exists_mem_of_ne_nil l hne
  have hwit : ∃ c ∈ l, c.slack < DBL_MAX ∨ c.equality = true :=
    ⟨c0, hc0, Or.inl (hfin c0 hc0)⟩
  obtain ⟨⟨v, j⟩, hsnd⟩ := mvScan_some_of_wit l 0 DBL_MAX none hwit
  have hfull : mvScan l 0 DBL_MAX none = ((mvScan l 0 DBL_MAX none).1, some (v, j)) := by
    rw [← hsnd]
  have hms : (mvScan l 0 DBL_MAX none).1 = v.slack :=
    mvScan_fst_slack l 0 DBL_MAX none (by intro a b h; simp at h)
      (mvScan l 0 DBL_MAX none).1 v j hfull
  rcases mvScan_index l 0 DBL_MAX none (mvScan l 0 DBL_MAX none).1 v j hfull with
    habs | ⟨-, hj2, hj3⟩
  · simp at habs
  have hjlen : j < l.length := by simpa using hj2
  have hjget : l.get? j = some v := by simpa using hj3
  have hmv : mostViolated l =
      if ((mvScan l 0 DBL_MAX none).1 < ZERO_UPPERBOUND ∧ ¬v.active) ∨ v.equality then
        (some v, swapRemove l j)
      else (some v, l) := by
    have hdef : mostViolated l = (match mvScan l 0 DBL_MAX none with
      | (_, none) => (none, l)
      | (minSlack, some (w, i)) =>
        if (minSlack < ZERO_UPPERBOUND ∧ ¬w.active) ∨ w.equality then
          (some w, swapRemove l i)
        else (some w, l)) := rfl
    rw [hdef, hfull]
  refine ⟨v, j, ?_, hjlen, hjget, ?_, ?_, ?_, ?_⟩
  · rw [hmv]
    split <;> rfl
  · intro hc'
    rw [hmv, if_pos ?_]
    rcases hc' with heq | ⟨hsl, hact⟩
    · exact Or.inr heq
    · exact Or.inl ⟨by rw [hms]; exact hsl, by simp [hact]⟩
  · rintro ⟨heq, hrest⟩
    rw [hmv, if_neg ?_]
    rintro (⟨hlt, hnact⟩ | habs2)
    · rw [hms] at hlt
      rcases hrest with h1 | h1
      · exact absurd hlt (not_lt.mpr h1)
      · exact hnact h1
    · exact absurd habs2 (by simp [heq])
  · intro hnoeq c hc
    have h := (mvScan_fst_le l 0 DBL_MAX none hnoeq).2 c hc
    rw [hms] at h
    exact h
  · intro e he
    obtain ⟨j0, hj0⟩ := mvScan_firstEq l 0 DBL_MAX none e he
    have hcomp := hfull.symm.trans hj0
    simp only [Prod.mk.injEq, Option.some.injEq] at hcomp
    exact hcomp.2.1

/-- Witness for C3: the theorem applied to a concrete one-element inactive
list holding a violated constraint. -/
theorem mostViolated_c3_witness :
    (([violatedConstraint] : List Constraint) ≠ []) ∧
    (∀ c ∈ [violatedConstraint], c.slack < DBL_MAX) ∧
    (∃ v j, (mostViolated [violatedConstraint]).1 = some v ∧
      j < [violatedConstraint].length ∧ [violatedConstraint].get? j = some v ∧
      ((v.equality = true ∨ (v.slack < ZERO_UPPERBOUND ∧ v.active = false)) →
          (mostViolated [violatedConstraint]).2 = swapRemove [violatedConstraint] j) ∧
      ((v.equality = false ∧ (ZERO_UPPERBOUND ≤ v.slack ∨ v.active = true)) →
          (mostViolated [violatedConstraint]).2 = [violatedConstraint]) ∧
      ((∀ c ∈ [violatedConstraint], c.equality = false) →
          ∀ c ∈ [violatedConstraint], v.slack ≤ c.slack) ∧
      (∀ e, [violatedConstraint].find? (fun c => c.equality) = some e → v = e)) :=
  ⟨by simp, by simpa using violatedConstraint_slack_lt_max,
    mostViolated_c3 [violatedConstraint] (by simp)
      (by simpa using violatedConstraint_slack_lt_max)⟩

/-- C9: `mostViolated` on an empty inactive list returns `NULL` and leaves
the list unchanged — `deletePoint == end` short-circuits the removal test
before `v` would be dereferenced. -/
theorem mostViolated_nil_c9 : mostViolated [] = (none, []) := rfl

/-- C4: the merge loop of `IncSolver::satisfy` runs its body precisely for
a non-`NULL` `v` with `v->equality || (v->slack() < ZERO_UPPERBOUND &&
!v->active)` — `&&` binding tighter than `||` — and stops for `NULL`, or
for a non-equality constraint that has slack `≥ ZERO_UPPERBOUND` or is
already active. -/
theorem mergeLoopCond_c4 : ∀ (r : Option Constraint),
    (mergeLoopCond r = true ↔
      ∃ v, r = some v ∧
        (v.equality = true ∨ (v.slack < ZERO_UPPERBOUND ∧ v.active = false))) ∧
    (mergeLoopCond r = false ↔
      (r = none ∨ ∃ v, r = some v ∧ v.equality = false ∧
        (ZERO_UPPERBOUND ≤ v.slack ∨ v.active = true))) := by
  intro r
  cases r with
  | none => simp [mergeLoopCond]
  | some v =>
    simp only [mergeLoopCond, mergeLoopGuard, Bool.or_eq_true, Bool.and_eq_true,
      decide_eq_true_eq, Bool.not_eq_true', Option.some.injEq]
    constructor
    · constructor
      · rintro (h | ⟨h1, h2⟩)
        · exact ⟨v, rfl, Or.inl h⟩
        · exact ⟨v, rfl, Or.inr ⟨h1, h2⟩⟩
      · rintro ⟨w, rfl, (h | ⟨h1, h2⟩)⟩
        · exact Or.inl h
        · exact Or.inr ⟨h1, h2⟩
    · simp only [Bool.or_eq_false_iff, Bool.and_eq_false_iff, decide_eq_false_iff_not,
        not_lt, Bool.not_eq_false']
      constructor
      · rintro ⟨h1, (h2 | h2)⟩
        · exact Or.inr ⟨v, rfl, h1, Or.inl h2⟩
        · exact Or.inr ⟨v, rfl, h1, Or.inr h2⟩
      · rintro (h | ⟨w, hw, h1, h2⟩)
        · exact absurd h (by simp)
        · cases hw
          exact ⟨h1, h2⟩

/-- C5: when the most-violated constraint joins two variables of one block
and the active tree has a directed path from `v.right` to `v.left`
(activating `v` would close a cycle), the body only latches
`v.unsatisfiable`, performs no block operation, leaves `inactive` and
`v.active` untouched, and raises no error. -/
theorem satisfyStep_cycle_c5 : ∀ (ctx : StepCtx) (v : Constraint)
    (inact : List Constraint),
    ctx.sameBlock = true → ctx.pathRightLeft = true →
    (satisfyStep ctx v inact).v = { v with unsatisfiable := true } ∧
    (satisfyStep ctx v inact).actions = [] ∧
    (satisfyStep ctx v inact).inactive = inact ∧
    (satisfyStep ctx v inact).v.active = v.active ∧
    (satisfyStep ctx v inact).raised = none := by
  intro ctx v inact h1 h2
  simp [satisfyStep, h1, h2]

/-- Witness for C5: a concrete cycle-detecting iteration. -/
theorem satisfyStep_cycle_c5_witness :
    (satisfyStep ⟨true, true, false, none, 0⟩ violatedConstraint []).v
        = { violatedConstraint with unsatisfiable := true } ∧
    (satisfyStep ⟨true, true, false, none, 0⟩ violatedConstraint []).actions = [] ∧
    (satisfyStep ⟨true, true, false, none, 0⟩ violatedConstraint []).inactive = [] ∧
    (satisfyStep ⟨true, true, false, none, 0⟩ violatedConstraint []).v.active
        = violatedConstraint.active ∧
    (satisfyStep ⟨true, true, false, none, 0⟩ violatedConstraint []).raised = none :=
  satisfyStep_cycle_c5 ⟨true, true, false, none, 0⟩ violatedConstraint [] rfl rfl

/-- C6: in the same-block case without a cycle, a successful
`splitBetween` appends the freed constraint to `inactive`; then for
`v.slack() ≥ 0` the body appends `v` back and inserts both halves, while
for `v.slack() < 0` it merges the halves back over `v` and inserts the
merged block; a `NULL` split marks `v` unsatisfiable and skips it. -/
theorem satisfyStep_split_c6 : ∀ (ctx : StepCtx) (v : Constraint)
    (inact : List Constraint),
    ctx.sameBlock = true → ctx.pathRightLeft = false → ctx.splitThrows = false →
    ((∀ cSplit, ctx.splitResult = some cSplit →
        (satisfyStep ctx v inact).inactive
            = (inact ++ [cSplit]) ++ (if 0 ≤ ctx.slackAfterSplit then [v] else []) ∧
        (0 ≤ ctx.slackAfterSplit →
          (satisfyStep ctx v inact).actions
              = [BlockAction.insertLeftHalf, BlockAction.insertRightHalf,
                  BlockAction.cleanup]) ∧
        (ctx.slackAfterSplit < 0 →
          (satisfyStep ctx v inact).actions
              = [BlockAction.mergeBlocks, BlockAction.insertMerged,
                  BlockAction.cleanup])) ∧
     (ctx.splitResult = none →
        (satisfyStep ctx v inact).v = { v with unsatisfiable := true } ∧
        (satisfyStep ctx v inact).actions = [] ∧
        (satisfyStep ctx v inact).inactive = inact)) := by
  intro ctx v inact h1 h2 h3
  constructor
  · intro cSplit hs
    by_cases h0 : 0 ≤ ctx.slackAfterSplit
    · refine ⟨?_, fun _ => ?_, fun hneg => absurd h0 (not_le.mpr hneg)⟩ <;>
        simp [satisfyStep, h1, h2, h3, hs, h0]
    · refine ⟨?_, fun hpos => absurd hpos h0, fun _ => ?_⟩ <;>
        simp [satisfyStep, h1, h2, h3, hs, h0]
  · intro hs
    refine ⟨?_, ?_, ?_⟩ <;> simp [satisfyStep, h1, h2, h3, hs]

/-- Witness for C6: a concrete split whose outcome satisfies `v`. -/
theorem satisfyStep_split_c6_witness :
    ((∀ cSplit,
        (⟨true, false, false, some violatedConstraint, 0⟩ : StepCtx).splitResult
            = some cSplit →
        (satisfyStep ⟨true, false, false, some violatedConstraint, 0⟩
              violatedConstraint []).inactive
            = (([] : List Constraint) ++ [cSplit]) ++
                (if 0 ≤ (⟨true, false, false, some violatedConstraint, 0⟩ :
                    StepCtx).slackAfterSplit then [violatedConstraint] else []) ∧
        (0 ≤ (⟨true, false, false, some violatedConstraint, 0⟩ :
            StepCtx).slackAfterSplit →
          (satisfyStep ⟨true, false, false, some violatedConstraint, 0⟩
                violatedConstraint []).actions
              = [BlockAction.insertLeftHalf, BlockAction.insertRightHalf,
                  BlockAction.cleanup]) ∧
        ((⟨true, false, false, some violatedConstraint, 0⟩ :
            StepCtx).slackAfterSplit < 0 →
          (satisfyStep ⟨true, false, false, some violatedConstraint, 0⟩
                violatedConstraint []).actions
              = [BlockAction.mergeBlocks, BlockAction.insertMerged,
                  BlockAction.cleanup])) ∧
     ((⟨true, false, false, some violatedConstraint, 0⟩ : StepCtx).splitResult
            = none →
        (satisfyStep ⟨true, false, false, some violatedConstraint, 0⟩
              violatedConstraint []).v
            = { violatedConstraint with unsatisfiable := true } ∧
        (satisfyStep ⟨true, false, false, some violatedConstraint, 0⟩
              violatedConstraint []).actions = [] ∧
        (satisfyStep ⟨true, false, false, some violatedConstraint, 0⟩
              violatedConstraint []).inactive = [])) :=
  satisfyStep_split_c6 ⟨true, false, false, some violatedConstraint, 0⟩
    violatedConstraint [] rfl rfl rfl

/-- C7: `Solver::refine` executes at most `maxtries = 100` outer passes,
so it terminates; it exits after a pass that found no constraint with
`lm < LAGRANGIAN_TOLERANCE` to split on, unless the cap is exhausted. -/
theorem refinePassCount_c7 : ∀ (splitFound : ℕ → Bool),
    refinePassCount splitFound ≤ 100 ∧
    (refinePassCount splitFound = 100 ∨
      splitFound (refinePassCount splitFound - 1) = false) := by
  intro f
  have h := refineLoop_le f 100 0
  simpa [refinePassCount] using h

/-- C8: solving is deterministic — the solve pipeline is a function of the
initial state (given the same block-operation effects), so equal initial
states produce identical `finalPosition` outputs; and `copyResult` is
idempotent, so re-running it over an unchanged state reproduces the same
`finalPosition` values. -/
theorem solveModel_deterministic_c8 :
    (∀ (f : Constraint → SolverState → SolverState) (fuel : ℕ)
        (s t : SolverState), s = t → solveModel f fuel s = solveModel f fuel t) ∧
    (∀ vs : List Variable, copyResult (copyResult vs) = copyResult vs) := by
  constructor
  · intro f fuel s t h
    rw [h]
  · intro vs
    induction vs with
    | nil => rfl
    | cons v t ih =>
      simp only [copyResult, List.map_cons] at ih ⊢
      rw [ih]
      rfl

/-- Witness for C8: determinism at a concrete state and idempotence on a
concrete variable list. -/
theorem solveModel_deterministic_c8_witness :
    solveModel (fun _ st => st) 0 ⟨[unitVar], []⟩
        = solveModel (fun _ st => st) 0 ⟨[unitVar], []⟩ ∧
    copyResult (copyResult [unitVar]) = copyResult [unitVar] :=
  ⟨solveModel_deterministic_c8.1 (fun _ st => st) 0 ⟨[unitVar], []⟩ ⟨[unitVar], []⟩ rfl,
    solveModel_deterministic_c8.2 [unitVar]⟩

/-- C10: `Solver::copyResult` writes `finalPosition := position()` into
every variable of the solver's list, touching no other field; and when a
variable's scale is non-zero (its block position and offset being exact
rationals, hence finite), the written value is a proper number, so the
`ASSERT(v->finalPosition==v->finalPosition)` NaN check holds. -/
theorem copyResult_c10 : ∀ (vs : List Variable),
    (copyResult vs).length = vs.length ∧
    ∀ (i : ℕ) (v : Variable), vs.get? i = some v →
      (copyResult vs).get? i = some { v with finalPosition := v.positionOpt } ∧
      (v.scale ≠ 0 →
        ({ v with finalPosition := v.positionOpt } : Variable).finalPosition.isSome
          = true) := by
  intro vs
  constructor
  · simp [copyResult]
  · intro i v hv
    constructor
    · simp only [copyResult, List.get?_eq_getElem?, List.getElem?_map] at hv ⊢
      rw [hv]
      rfl
    · intro hscale
      simp [Variable.positionOpt, hscale]

/-- Witness for C10: `copyResult` over one concrete variable. -/
theorem copyResult_c10_witness :
    ([unitVar].get? 0 = some unitVar) ∧
    (copyResult [unitVar]).get? 0
        = some { unitVar with finalPosition := unitVar.positionOpt } ∧
    (unitVar.scale ≠ 0 →
      ({ unitVar with finalPosition := unitVar.positionOpt } :
          Variable).finalPosition.isSome = true) :=
  ⟨rfl, (copyResult_c10 [unitVar]).2 0 unitVar rfl⟩

end Vpsc
